import Mathlib

/-!
Shallow embedding of the cross-resource custom-field discovery and
association-aggregation engine of `src/apps/custom-field-exporter/public/app.js`
(functions `handleLoad`, `fetchAllCustomFields`, `buildResourceMap`,
`fetchLastUsedDates`, `setProgress` call sites), together with theorems that
settle the specification claims about it.

Network effects are modelled by oracles: every upstream fetch site is given
its outcome as data.  A fetch outcome distinguishes the three observable
cases of the JavaScript code: a parsed OK response, a response with
`res.ok = false`, and a rejected promise (network-level throw), because the
code treats the last two differently at several call sites.
-/

/-- Outcome of one upstream fetch: parsed OK payload, non-OK HTTP response
(`res.ok` false), or a rejected promise (the `fetch`, or `res.json`, threw). -/
inductive Fetch (α : Type) where
  | ok (val : α)
  | httpErr
  | thrown (msg : String)
deriving Repr, DecidableEq

/-- Association entry pushed into `map[field.gid]` by `buildResourceMap`:
`{ gid: resource.gid, name: resource.name }` plus the optional `privacy`,
`added_at`, `added_by` properties that are set only when truthy. -/
structure AssocEntry where
  gid : String
  name : String
  privacy : Option String := none
  addedAt : Option String := none
  addedBy : Option String := none
deriving Repr, DecidableEq

/-- Custom-field record as handled by `app.js`: the payload properties read by
the aggregation (`gid`, `is_global_to_workspace`, `created_by?.name`) plus the
properties the run attaches (`projects`, `portfolios`, `goals`, `last_used`,
`last_used_task_gid`).  For the two last-used properties, `none` models the
JavaScript property being absent (never assigned) and `some none` models the
property assigned `null`. -/
structure CField where
  gid : String
  name : String := ""
  isGlobalToWorkspace : Bool := false
  createdBy : Option String := none
  projects : List AssocEntry := []
  portfolios : List AssocEntry := []
  goals : List AssocEntry := []
  lastUsed : Option (Option String) := none
  lastUsedTaskGid : Option (Option String) := none
deriving Repr, DecidableEq

/-- One project, portfolio or goal from a category list response. -/
structure Resource where
  gid : String
  name : String := ""
  privacySetting : Option String := none
deriving Repr, DecidableEq

/-- One entry of a `*-custom-fields` settings response: the embedded
`custom_field` payload plus the optional `created_at` and `created_by.name`
attachment metadata. -/
structure Setting where
  customField : Option CField := none
  createdAt : Option String := none
  createdByName : Option String := none
deriving Repr, DecidableEq

/-- Task summary returned by the `search-tasks` endpoint. -/
structure TaskSummary where
  modifiedAt : String := ""
  gid : String := ""
deriving Repr, DecidableEq

/-- JavaScript truthiness of an optional string property: present and
non-empty.  Models checks such as `if (resource.privacy_setting)` and
`!field.created_by?.name`. -/
def optTruthy : Option String → Bool
  | some s => s != ""
  | none => false

/-- Pagination driver shared by `fetchAllCustomFields` and the resource-list
loop of `buildResourceMap`: successive page outcomes are concatenated until
the cursor chain ends; the first non-OK page outcome decides the whole fetch
(`httpErr` for a non-OK response, `thrown` for a rejected promise). -/
def collectPages : List (Fetch (List α)) → Fetch (List α)
  | [] => .ok []
  | .ok xs :: rest =>
    match collectPages rest with
    | .ok ys => .ok (xs ++ ys)
    | .httpErr => .httpErr
    | .thrown m => .thrown m
  | .httpErr :: _ => .httpErr
  | .thrown m :: _ => .thrown m

/-- Association map keyed by field gid, in JavaScript-object insertion order. -/
abbrev AssocMap := List (String × List AssocEntry)

/-- Newly-discovered field map keyed by field gid, in insertion order. -/
abbrev FieldMap := List (String × CField)

/-- Lookup in an insertion-ordered map (`map[gid]`). -/
def mapLookup : List (String × α) → String → Option α
  | [], _ => none
  | (k, v) :: rest, g => if k = g then some v else mapLookup rest g

/-- Models `if (!map[k]) map[k] = []; map[k].push(e)`. -/
def pushEntry : AssocMap → String → AssocEntry → AssocMap
  | [], k, e => [(k, [e])]
  | (k', v) :: rest, k, e =>
    if k' = k then (k', v ++ [e]) :: rest else (k', v) :: pushEntry rest k e

/-- The association entry built for one (resource, setting) pair. -/
def mkEntry (r : Resource) (s : Setting) : AssocEntry :=
  { gid := r.gid
    name := r.name
    privacy := if optTruthy r.privacySetting then r.privacySetting else none
    addedAt := if optTruthy s.createdAt then s.createdAt else none
    addedBy := if optTruthy s.createdByName then s.createdByName else none }

/-- Body of the `for (const setting of (data.data || []))` loop of
`buildResourceMap`: skip settings without a truthy `custom_field.gid`, push
the association entry, and capture the payload as newly discovered when it is
non-global, unknown, and not already captured in this category. -/
def processSetting (known : List String) (r : Resource)
    (acc : AssocMap × FieldMap) (s : Setting) : AssocMap × FieldMap :=
  match s.customField with
  | none => acc
  | some f =>
    if f.gid = "" then acc
    else
      let m := pushEntry acc.1 f.gid (mkEntry r s)
      let ex :=
        if f.isGlobalToWorkspace = false ∧ f.gid ∉ known ∧
            mapLookup acc.2 f.gid = none then
          acc.2 ++ [(f.gid, f)]
        else acc.2
      (m, ex)

/-- Per-resource settings fetch of `buildResourceMap`: a non-OK response
(`if (!res.ok) return`) and a thrown fetch (`catch` with an empty handler)
both contribute nothing; an OK response is folded setting by setting. -/
def processResource (settingsOf : String → Fetch (List Setting))
    (known : List String) (acc : AssocMap × FieldMap) (r : Resource) :
    AssocMap × FieldMap :=
  match settingsOf r.gid with
  | .ok ss => ss.foldl (processSetting known r) acc
  | .httpErr => acc
  | .thrown _ => acc

/-- Fixed-size chunking with explicit fuel, mirroring
`for (let i = 0; i < n; i += W) { const batch = xs.slice(i, i + W); ... }`. -/
def chunksAux (W : Nat) : Nat → List α → List (List α)
  | 0, _ => []
  | _, [] => []
  | fuel + 1, xs => xs.take W :: chunksAux W fuel (xs.drop W)

/-- The list of batches of width `W` cut from `xs`. -/
def chunks (W : Nat) (xs : List α) : List (List α) :=
  chunksAux W xs.length xs

/-- Translation of `buildResourceMap`: fetch the full resource list (a non-OK
page returns empty maps immediately; a rejected page propagates as an
exception), then process resources in batches of `CONCURRENCY = 5`,
accumulating the association map and the newly-discovered field map. -/
def buildResourceMap (listPages : List (Fetch (List Resource)))
    (settingsOf : String → Fetch (List Setting)) (known : List String) :
    Except String (AssocMap × FieldMap) :=
  match collectPages listPages with
  | .thrown m => .error m
  | .httpErr => .ok ([], [])
  | .ok resources =>
    .ok ((chunks 5 resources).foldl
      (fun acc batch => batch.foldl (processResource settingsOf known) acc)
      ([], []))

/-- Outcome of one run of the fixed-width batch loop: per-item results in item
order, the number of batches executed, and the number of inter-batch pauses
(`sleep`) performed. -/
structure BatchRun (β : Type) where
  results : List β
  batches : Nat
  pauses : Nat
deriving Repr, DecidableEq

/-- Fuel-indexed transcription of the batch loop shared by `buildResourceMap`
and `fetchLastUsedDates`: take a batch of `W` items, settle every item of the
batch, pause only when further items remain (`if (i + W < total) await sleep`),
then continue with the rest. -/
def runBatchesAux (W : Nat) (step : α → β) : Nat → List α → BatchRun β
  | 0, _ => ⟨[], 0, 0⟩
  | _, [] => ⟨[], 0, 0⟩
  | fuel + 1, items =>
    let rs := (items.take W).map step
    let rest := items.drop W
    let tail := runBatchesAux W step fuel rest
    ⟨rs ++ tail.results, tail.batches + 1,
      tail.pauses + (if rest.isEmpty then 0 else 1)⟩

/-- The batch runner on a full item list. -/
def runBatches (W : Nat) (step : α → β) (items : List α) : BatchRun β :=
  runBatchesAux W step items.length items

/-- String truthiness (`task?.modified_at || null` style defaulting). -/
def strTruthy (s : String) : Bool := s != ""

/-- Per-field body of `fetchLastUsedDates`: a non-OK response sets
`last_used = null` and returns; a thrown fetch is caught and sets
`last_used = null`; an OK response records the top task data, defaulting
falsy properties to `null`. -/
def enrichField (search : String → Fetch (Option TaskSummary)) (f : CField) :
    CField :=
  match search f.gid with
  | .httpErr => { f with lastUsed := some none }
  | .thrown _ => { f with lastUsed := some none }
  | .ok t? =>
    let lu := match t? with
      | some t => if strTruthy t.modifiedAt then some t.modifiedAt else none
      | none => none
    let lg := match t? with
      | some t => if strTruthy t.gid then some t.gid else none
      | none => none
    { f with lastUsed := some lu, lastUsedTaskGid := some lg }

/-- Translation of `fetchLastUsedDates`: enrich every field through the batch
runner with `CONCURRENCY = 3`. -/
def fetchLastUsedDates (search : String → Fetch (Option TaskSummary))
    (fields : List CField) : List CField :=
  (runBatches 3 (enrichField search) fields).results

/-- All upstream responses one aggregation run can observe, plus the state of
the `include-last-used` checkbox. -/
structure World where
  libraryPages : List (Fetch (List CField))
  projectPages : List (Fetch (List Resource))
  portfolioPages : List (Fetch (List Resource))
  goalPages : List (Fetch (List Resource))
  projectSettings : String → Fetch (List Setting)
  portfolioSettings : String → Fetch (List Setting)
  goalSettings : String → Fetch (List Setting)
  searchTask : String → Fetch (Option TaskSummary)
  includeLastUsed : Bool

/-- Translation of `fetchAllCustomFields`: the workspace-library pagination
loop, which throws on the first failing page (with the body error message for
a non-OK response, or the rejection itself). -/
def fetchAllCustomFields (pages : List (Fetch (List CField))) :
    Except String (List CField) :=
  match collectPages pages with
  | .ok fields => .ok fields
  | .httpErr => .error failedLoadMsg
  | .thrown m => .error m
where
  /-- Fallback message of `throw new Error(body.error || ...)`. -/
  failedLoadMsg : String := "Failed to load custom fields"

/-- Step 3 of `handleLoad` applied to one field: attach the three per-category
association lists (defaulting to `[]`) and default a falsy creator name to
the literal `Asana`. -/
def attachAssoc (pm pom gm : AssocMap) (f : CField) : CField :=
  let f1 := { f with
    projects := (mapLookup pm f.gid).getD []
    portfolios := (mapLookup pom f.gid).getD []
    goals := (mapLookup gm f.gid).getD [] }
  if optTruthy f1.createdBy then f1 else { f1 with createdBy := some "Asana" }

/-- Steps 1 to 3 of `handleLoad`: fetch the workspace library, run
`buildResourceMap` for projects, portfolios and goals in that order while
growing the known-gid set and appending each newly-discovered field, then
attach associations to every merged field.  Any exception escaping a step
aborts the run (it is caught by the top-level `catch`, which shows the error
banner). -/
def reconcile (w : World) : Except String (List CField) :=
  match fetchAllCustomFields w.libraryPages with
  | .error m => .error m
  | .ok lib =>
    match buildResourceMap w.projectPages w.projectSettings
        (lib.map CField.gid) with
    | .error m => .error m
    | .ok (pm, pf) =>
      match buildResourceMap w.portfolioPages w.portfolioSettings
          (lib.map CField.gid ++ pf.map Prod.fst) with
      | .error m => .error m
      | .ok (pom, pof) =>
        match buildResourceMap w.goalPages w.goalSettings
            (lib.map CField.gid ++ pf.map Prod.fst ++ pof.map Prod.fst) with
        | .error m => .error m
        | .ok (gm, gf) =>
          .ok ((lib ++ pf.map Prod.snd ++ pof.map Prod.snd ++
            gf.map Prod.snd).map (attachAssoc pm pom gm))

/-- Full `handleLoad` data path: reconcile, then optionally run the last-used
enrichment stage, gated by the checkbox. -/
def handleLoad (w : World) : Except String (List CField) :=
  match reconcile w with
  | .error m => .error m
  | .ok fs =>
    .ok (if w.includeLastUsed then fetchLastUsedDates w.searchTask fs else fs)

/-- Progress percentages emitted inside the `fetchAllCustomFields` pagination
loop: `Math.min(page * 5, 20)` before each page fetch, stopping after the
first failing page (the exception aborts the loop). -/
def libPagesTrace : Nat → List (Fetch (List CField)) → List Nat
  | _, [] => []
  | page, p :: rest =>
    min (page * 5) 20 ::
      (match p with
       | .ok _ => libPagesTrace (page + 1) rest
       | .httpErr => []
       | .thrown _ => [])

/-- Natural-number value of `Math.round((num / total) * 20)`. -/
def jsRound20 (num total : Nat) : Nat := (num * 40 + total) / (2 * total)

/-- Percentages emitted per batch inside `fetchLastUsedDates`:
`Math.min(75 + Math.round(((i + 3) / total) * 20), 94)` before each batch. -/
def lastUsedTraceAux (total : Nat) : Nat → Nat → List Nat
  | 0, _ => []
  | fuel + 1, i =>
    if i < total then
      min (75 + jsRound20 (i + 3) total) 94 ::
        lastUsedTraceAux total fuel (i + 3)
    else []

/-- Full last-used-stage progress trace for `total` fields. -/
def lastUsedTrace (total : Nat) : List Nat := lastUsedTraceAux total total 0

/-- The sequence of percentages passed to `setProgress` over one `handleLoad`
run, in emission order: the initial 0, the per-page library values, then on
success 40 (fields loaded) followed by 25 / 45 / 60 at the three category
scans, the optional enrichment values starting at 75, and the final 100.
A phase whose fetch throws ends the trace (the exception reaches the
top-level `catch`). -/
def handleLoadTrace (w : World) : List Nat :=
  0 :: (libPagesTrace 1 w.libraryPages ++
    match fetchAllCustomFields w.libraryPages with
    | .error _ => []
    | .ok lib =>
      40 :: 25 ::
        (match buildResourceMap w.projectPages w.projectSettings
            (lib.map CField.gid) with
         | .error _ => []
         | .ok (_, pf) =>
           45 ::
             (match buildResourceMap w.portfolioPages w.portfolioSettings
                 (lib.map CField.gid ++ pf.map Prod.fst) with
              | .error _ => []
              | .ok (_, pof) =>
                60 ::
                  (match buildResourceMap w.goalPages w.goalSettings
                      (lib.map CField.gid ++ pf.map Prod.fst ++
                        pof.map Prod.fst) with
                   | .error _ => []
                   | .ok (_, gf) =>
                     (if w.includeLastUsed then
                       75 :: lastUsedTrace (lib.length + pf.length +
                         pof.length + gf.length)
                     else []) ++ [100]))))

theorem chunksAux_foldl {γ : Type _} (W : Nat) (hW : 0 < W) (g : γ → α → γ) :
    ∀ (fuel : Nat) (xs : List α) (a : γ), xs.length ≤ fuel →
      (chunksAux W fuel xs).foldl (fun acc batch => batch.foldl g acc) a =
        xs.foldl g a := by
  intro fuel
  induction fuel with
  | zero =>
    intro xs a h
    cases xs with
    | nil => rfl
    | cons x xs => simp at h
  | succ n ih =>
    intro xs a h
    cases xs with
    | nil => rfl
    | cons x xs =>
      have hlen : ((x :: xs).drop W).length ≤ n := by
        simp only [List.length_drop, List.length_cons]
        simp only [List.length_cons] at h
        omega
      calc (chunksAux W (n + 1) (x :: xs)).foldl
            (fun acc batch => batch.foldl g acc) a
          = (chunksAux W n ((x :: xs).drop W)).foldl
            (fun acc batch => batch.foldl g acc)
            (((x :: xs).take W).foldl g a) := rfl
        _ = ((x :: xs).drop W).foldl g (((x :: xs).take W).foldl g a) :=
            ih _ _ hlen
        _ = (((x :: xs).take W) ++ ((x :: xs).drop W)).foldl g a :=
            (List.foldl_append ..).symm
        _ = (x :: xs).foldl g a := by rw [List.take_append_drop]

theorem runBatchesAux_results (W : Nat) (hW : 0 < W) (step : α → β) :
    ∀ (fuel : Nat) (items : List α), items.length ≤ fuel →
      (runBatchesAux W step fuel items).results = items.map step := by
  intro fuel
  induction fuel with
  | zero =>
    intro items h
    cases items with
    | nil => rfl
    | cons x xs => simp at h
  | succ n ih =>
    intro items h
    cases items with
    | nil => rfl
    | cons x xs =>
      have hlen : ((x :: xs).drop W).length ≤ n := by
        simp only [List.length_drop, List.length_cons]
        simp only [List.length_cons] at h
        omega
      show ((x :: xs).take W).map step ++
        (runBatchesAux W step n ((x :: xs).drop W)).results = _
      rw [ih _ hlen, ← List.map_append, List.take_append_drop]

theorem runBatchesAux_batches (W : Nat) (hW : 0 < W) (step : α → β) :
    ∀ (fuel : Nat) (items : List α), items.length ≤ fuel →
      (runBatchesAux W step fuel items).batches =
        (items.length + W - 1) / W := by
  intro fuel
  induction fuel with
  | zero =>
    intro items h
    cases items with
    | nil =>
      simp only [List.length_nil, Nat.zero_add]
      exact (Nat.div_eq_of_lt (by omega)).symm
    | cons x xs => simp at h
  | succ n ih =>
    intro items h
    cases items with
    | nil =>
      simp only [List.length_nil, Nat.zero_add]
      exact (Nat.div_eq_of_lt (by omega)).symm
    | cons x xs =>
      have hlen : ((x :: xs).drop W).length ≤ n := by
        simp only [List.length_drop, List.length_cons]
        simp only [List.length_cons] at h
        omega
      show (runBatchesAux W step n ((x :: xs).drop W)).batches + 1 =
        ((x :: xs).length + W - 1) / W
      rw [ih _ hlen]
      simp only [List.length_drop, List.length_cons]
      by_cases hc : xs.length + 1 ≤ W
      · have h0 : xs.length + 1 - W = 0 := by omega
        rw [h0]
        have hz : (0 + W - 1) / W = 0 := by
          rw [Nat.zero_add]
          exact Nat.div_eq_of_lt (by omega)
        rw [hz]
        have hlo : 1 ≤ (xs.length + 1 + W - 1) / W :=
          (Nat.one_le_div_iff hW).mpr (by omega)
        have hhi : (xs.length + 1 + W - 1) / W < 2 :=
          (Nat.div_lt_iff_lt_mul hW).mpr (by omega)
        omega
      · have e1 : xs.length + 1 - W + W - 1 = xs.length := by omega
        have e2 : xs.length + 1 + W - 1 = xs.length + W := by omega
        rw [e1, e2, Nat.add_div_right _ hW]

theorem runBatchesAux_pauses (W : Nat) (hW : 0 < W) (step : α → β) :
    ∀ (fuel : Nat) (items : List α), items.length ≤ fuel →
      (runBatchesAux W step fuel items).pauses =
        (runBatchesAux W step fuel items).batches - 1 := by
  intro fuel
  induction fuel with
  | zero =>
    intro items h
    cases items with
    | nil => rfl
    | cons x xs => simp at h
  | succ n ih =>
    intro items h
    cases items with
    | nil => rfl
    | cons x xs =>
      have hlen : ((x :: xs).drop W).length ≤ n := by
        simp only [List.length_drop, List.length_cons]
        simp only [List.length_cons] at h
        omega
      show (runBatchesAux W step n ((x :: xs).drop W)).pauses +
          (if ((x :: xs).drop W).isEmpty then 0 else 1) =
        (runBatchesAux W step n ((x :: xs).drop W)).batches + 1 - 1
      cases hd : (x :: xs).drop W with
      | nil =>
        have ht : runBatchesAux W step n ([] : List α) = ⟨[], 0, 0⟩ := by
          cases n <;> rfl
        rw [ht]
        simp
      | cons y ys =>
        have hlen2 : (y :: ys).length ≤ n := hd ▸ hlen
        have hpos : 1 ≤ (runBatchesAux W step n (y :: ys)).batches := by
          rw [runBatchesAux_batches W hW step n _ hlen2]
          have hle : W ≤ (y :: ys).length + W - 1 := by
            simp only [List.length_cons]
            omega
          exact (Nat.one_le_div_iff hW).mpr hle
        rw [ih _ hlen2]
        simp only [List.isEmpty_cons, Bool.false_eq_true, if_false]
        omega

theorem mapLookup_eq_none_iff {α : Type _} (m : List (String × α)) (k : String) :
    mapLookup m k = none ↔ k ∉ m.map Prod.fst := by
  induction m with
  | nil => simp [mapLookup]
  | cons p rest ih =>
    obtain ⟨k', v⟩ := p
    by_cases h : k' = k
    · subst h
      simp [mapLookup]
    · have h2 : ¬ k = k' := fun e => h e.symm
      simp [mapLookup, h, h2, ih]

theorem processSetting_snd (known : List String) (r : Resource)
    (acc : AssocMap × FieldMap) (s : Setting) :
    (processSetting known r acc s).2 = acc.2 ∨
    ∃ f : CField, s.customField = some f ∧ ¬ f.gid = "" ∧
      f.isGlobalToWorkspace = false ∧ f.gid ∉ known ∧
      f.gid ∉ acc.2.map Prod.fst ∧
      (processSetting known r acc s).2 = acc.2 ++ [(f.gid, f)] := by
  cases hc : s.customField with
  | none => left; simp [processSetting, hc]
  | some f =>
    by_cases hg : f.gid = ""
    · left; simp [processSetting, hc, hg]
    · by_cases hcond : f.isGlobalToWorkspace = false ∧ f.gid ∉ known ∧
          mapLookup acc.2 f.gid = none
      · right
        refine ⟨f, rfl, hg, hcond.1, hcond.2.1,
          (mapLookup_eq_none_iff acc.2 f.gid).mp hcond.2.2, ?_⟩
        simp [processSetting, hc, hg, hcond]
      · left; simp [processSetting, hc, hg, hcond]

theorem settingsFold_snd_invariant (Q : String × CField → Prop)
    (known : List String) (r : Resource) :
    ∀ (ss : List Setting) (acc : AssocMap × FieldMap),
      (∀ p ∈ acc.2, Q p) →
      (∀ s ∈ ss, ∀ f : CField, s.customField = some f → ¬ f.gid = "" →
        f.isGlobalToWorkspace = false → f.gid ∉ known → Q (f.gid, f)) →
      ∀ p ∈ (ss.foldl (processSetting known r) acc).2, Q p := by
  intro ss
  induction ss with
  | nil => intro acc hacc _; exact hacc
  | cons s ss ih =>
    intro acc hacc hQ
    simp only [List.foldl_cons]
    apply ih
    · rcases processSetting_snd known r acc s with h | ⟨f, hcf, h1, h2, h3, _, h⟩
      · rw [h]; exact hacc
      · rw [h]
        intro p hp
        rcases List.mem_append.mp hp with hp | hp
        · exact hacc p hp
        · have hpe : p = (f.gid, f) := by simpa using hp
          rw [hpe]
          exact hQ s (List.mem_cons_self s ss) f hcf h1 h2 h3
    · intro s' hs' f hcf h1 h2 h3
      exact hQ s' (List.mem_cons_of_mem s hs') f hcf h1 h2 h3

theorem resourcesFold_snd_invariant (Q : String × CField → Prop)
    (so : String → Fetch (List Setting)) (known : List String) :
    ∀ (rs : List Resource) (acc : AssocMap × FieldMap),
      (∀ p ∈ acc.2, Q p) →
      (∀ r ∈ rs, ∀ ss, so r.gid = .ok ss → ∀ s ∈ ss, ∀ f : CField,
        s.customField = some f → ¬ f.gid = "" →
        f.isGlobalToWorkspace = false → f.gid ∉ known → Q (f.gid, f)) →
      ∀ p ∈ (rs.foldl (processResource so known) acc).2, Q p := by
  intro rs
  induction rs with
  | nil => intro acc hacc _; exact hacc
  | cons r rs ih =>
    intro acc hacc hQ
    simp only [List.foldl_cons]
    apply ih
    · cases hso : so r.gid with
      | ok ss =>
        have hstep := settingsFold_snd_invariant Q known r ss acc hacc
          (fun s hs f hcf h1 h2 h3 =>
            hQ r (List.mem_cons_self r rs) ss hso s hs f hcf h1 h2 h3)
        simpa [processResource, hso] using hstep
      | httpErr => simpa [processResource, hso] using hacc
      | thrown msg => simpa [processResource, hso] using hacc
    · intro r' hr' ss hss s hs f hcf h1 h2 h3
      exact hQ r' (List.mem_cons_of_mem r hr') ss hss s hs f hcf h1 h2 h3

theorem buildResourceMap_ok_eq (listPages : List (Fetch (List Resource)))
    (so : String → Fetch (List Setting)) (known : List String)
    (rs : List Resource) (hc : collectPages listPages = .ok rs) :
    buildResourceMap listPages so known =
      .ok (rs.foldl (processResource so known) ([], [])) := by
  unfold buildResourceMap
  rw [hc]
  exact congrArg Except.ok (by
    unfold chunks
    exact chunksAux_foldl 5 (by omega) (processResource so known)
      rs.length rs ([], []) le_rfl)

theorem buildResourceMap_snd_invariant (Q : String × CField → Prop)
    (listPages : List (Fetch (List Resource)))
    (so : String → Fetch (List Setting)) (known : List String)
    (m : AssocMap) (ex : FieldMap)
    (h : buildResourceMap listPages so known = .ok (m, ex))
    (hQ : ∀ rs, collectPages listPages = .ok rs → ∀ r ∈ rs, ∀ ss,
      so r.gid = .ok ss → ∀ s ∈ ss, ∀ f : CField, s.customField = some f →
      ¬ f.gid = "" → f.isGlobalToWorkspace = false → f.gid ∉ known →
      Q (f.gid, f)) :
    ∀ p ∈ ex, Q p := by
  cases hc : collectPages listPages with
  | thrown msg =>
    have he : buildResourceMap listPages so known = .error msg := by
      unfold buildResourceMap; rw [hc]
    rw [he] at h
    exact absurd h (by simp)
  | httpErr =>
    have he : buildResourceMap listPages so known = .ok (([], []) : AssocMap × FieldMap) := by
      unfold buildResourceMap; rw [hc]
    rw [he] at h
    injection h with h2
    have hex : ([] : FieldMap) = ex := congrArg Prod.snd h2
    intro p hp
    rw [← hex] at hp
    simp at hp
  | ok rs =>
    rw [buildResourceMap_ok_eq listPages so known rs hc] at h
    injection h with h2
    have hex : ex = (rs.foldl (processResource so known) ([], [])).2 :=
      (congrArg Prod.snd h2).symm
    rw [hex]
    exact resourcesFold_snd_invariant Q so known rs ([], [])
      (by intro p hp; simp at hp) (hQ rs hc)

theorem processSetting_keys_nodup (known : List String) (r : Resource)
    (acc : AssocMap × FieldMap) (s : Setting)
    (hn : (acc.2.map Prod.fst).Nodup) :
    ((processSetting known r acc s).2.map Prod.fst).Nodup := by
  rcases processSetting_snd known r acc s with h | ⟨f, _, _, _, _, h4, h⟩
  · rw [h]; exact hn
  · rw [h]
    simp only [List.map_append, List.map_cons, List.map_nil]
    rw [List.nodup_append]
    refine ⟨hn, List.nodup_singleton _, ?_⟩
    intro a ha hb
    have : a = f.gid := by simpa using hb
    exact h4 (this ▸ ha)

theorem settingsFold_keys_nodup (known : List String) (r : Resource) :
    ∀ (ss : List Setting) (acc : AssocMap × FieldMap),
      (acc.2.map Prod.fst).Nodup →
      (((ss.foldl (processSetting known r) acc).2.map Prod.fst)).Nodup := by
  intro ss
  induction ss with
  | nil => intro acc hn; exact hn
  | cons s ss ih =>
    intro acc hn
    simp only [List.foldl_cons]
    exact ih _ (processSetting_keys_nodup known r acc s hn)

theorem resourcesFold_keys_nodup (so : String → Fetch (List Setting))
    (known : List String) :
    ∀ (rs : List Resource) (acc : AssocMap × FieldMap),
      (acc.2.map Prod.fst).Nodup →
      (((rs.foldl (processResource so known) acc).2.map Prod.fst)).Nodup := by
  intro rs
  induction rs with
  | nil => intro acc hn; exact hn
  | cons r rs ih =>
    intro acc hn
    simp only [List.foldl_cons]
    apply ih
    cases hso : so r.gid with
    | ok ss => simpa [processResource, hso] using
        settingsFold_keys_nodup known r ss acc hn
    | httpErr => simpa [processResource, hso] using hn
    | thrown msg => simpa [processResource, hso] using hn

theorem buildResourceMap_keys_nodup (listPages : List (Fetch (List Resource)))
    (so : String → Fetch (List Setting)) (known : List String)
    (m : AssocMap) (ex : FieldMap)
    (h : buildResourceMap listPages so known = .ok (m, ex)) :
    (ex.map Prod.fst).Nodup := by
  cases hc : collectPages listPages with
  | thrown msg =>
    have he : buildResourceMap listPages so known = .error msg := by
      unfold buildResourceMap; rw [hc]
    rw [he] at h
    exact absurd h (by simp)
  | httpErr =>
    have he : buildResourceMap listPages so known =
        .ok (([], []) : AssocMap × FieldMap) := by
      unfold buildResourceMap; rw [hc]
    rw [he] at h
    injection h with h2
    have hex : ([] : FieldMap) = ex := congrArg Prod.snd h2
    rw [← hex]
    simp
  | ok rs =>
    rw [buildResourceMap_ok_eq listPages so known rs hc] at h
    injection h with h2
    have hex : ex = (rs.foldl (processResource so known) ([], [])).2 :=
      (congrArg Prod.snd h2).symm
    rw [hex]
    exact resourcesFold_keys_nodup so known rs ([], []) (by simp)

theorem keys_subset_processSetting (known : List String) (r : Resource)
    (acc : AssocMap × FieldMap) (s : Setting) :
    acc.2.map Prod.fst ⊆ (processSetting known r acc s).2.map Prod.fst := by
  rcases processSetting_snd known r acc s with h | ⟨f, _, _, _, _, _, h⟩
  · rw [h]
    exact fun a ha => ha
  · rw [h]
    simp only [List.map_append]
    exact List.subset_append_left _ _

theorem keys_subset_settingsFold (known : List String) (r : Resource) :
    ∀ (ss : List Setting) (acc : AssocMap × FieldMap),
      acc.2.map Prod.fst ⊆
        (ss.foldl (processSetting known r) acc).2.map Prod.fst := by
  intro ss
  induction ss with
  | nil => intro acc; exact fun a ha => ha
  | cons s ss ih =>
    intro acc
    simp only [List.foldl_cons]
    exact (keys_subset_processSetting known r acc s).trans (ih _)

theorem keys_subset_processResource (so : String → Fetch (List Setting))
    (known : List String) (acc : AssocMap × FieldMap) (r : Resource) :
    acc.2.map Prod.fst ⊆ (processResource so known acc r).2.map Prod.fst := by
  cases hso : so r.gid with
  | ok ss =>
    have he : processResource so known acc r =
        ss.foldl (processSetting known r) acc := by
      simp [processResource, hso]
    rw [he]
    exact keys_subset_settingsFold known r ss acc
  | httpErr =>
    have he : processResource so known acc r = acc := by
      simp [processResource, hso]
    rw [he]
    exact fun a ha => ha
  | thrown msg =>
    have he : processResource so known acc r = acc := by
      simp [processResource, hso]
    rw [he]
    exact fun a ha => ha

theorem keys_subset_resourcesFold (so : String → Fetch (List Setting))
    (known : List String) :
    ∀ (rs : List Resource) (acc : AssocMap × FieldMap),
      acc.2.map Prod.fst ⊆
        (rs.foldl (processResource so known) acc).2.map Prod.fst := by
  intro rs
  induction rs with
  | nil => intro acc; exact fun a ha => ha
  | cons r rs ih =>
    intro acc
    simp only [List.foldl_cons]
    exact (keys_subset_processResource so known acc r).trans (ih _)

theorem mem_keys_processSetting (known : List String) (r : Resource)
    (acc : AssocMap × FieldMap) (s : Setting) (f : CField)
    (hcf : s.customField = some f) (h1 : ¬ f.gid = "")
    (h2 : f.isGlobalToWorkspace = false) (h3 : f.gid ∉ known) :
    f.gid ∈ (processSetting known r acc s).2.map Prod.fst := by
  by_cases hm : f.gid ∈ acc.2.map Prod.fst
  · exact keys_subset_processSetting known r acc s hm
  · have hlk : mapLookup acc.2 f.gid = none := (mapLookup_eq_none_iff _ _).mpr hm
    have he : (processSetting known r acc s).2 = acc.2 ++ [(f.gid, f)] := by
      simp [processSetting, hcf, h1, h2, h3, hlk]
    rw [he]
    simp

theorem mem_keys_settingsFold (known : List String) (r : Resource) :
    ∀ (ss : List Setting) (acc : AssocMap × FieldMap) (s : Setting)
      (f : CField), s ∈ ss → s.customField = some f → ¬ f.gid = "" →
      f.isGlobalToWorkspace = false → f.gid ∉ known →
      f.gid ∈ (ss.foldl (processSetting known r) acc).2.map Prod.fst := by
  intro ss
  induction ss with
  | nil =>
    intro acc s f hs
    exact absurd hs (List.not_mem_nil s)
  | cons s0 ss ih =>
    intro acc s f hs hcf h1 h2 h3
    simp only [List.foldl_cons]
    rcases List.mem_cons.mp hs with he | hm
    · subst he
      exact keys_subset_settingsFold known r ss _
        (mem_keys_processSetting known r acc s f hcf h1 h2 h3)
    · exact ih _ s f hm hcf h1 h2 h3

theorem mem_keys_resourcesFold (so : String → Fetch (List Setting))
    (known : List String) :
    ∀ (rs : List Resource) (acc : AssocMap × FieldMap) (r : Resource)
      (ss : List Setting) (s : Setting) (f : CField), r ∈ rs →
      so r.gid = .ok ss → s ∈ ss → s.customField = some f → ¬ f.gid = "" →
      f.isGlobalToWorkspace = false → f.gid ∉ known →
      f.gid ∈ (rs.foldl (processResource so known) acc).2.map Prod.fst := by
  intro rs
  induction rs with
  | nil =>
    intro acc r ss s f hr
    exact absurd hr (List.not_mem_nil r)
  | cons r0 rs ih =>
    intro acc r ss s f hr hss hs hcf h1 h2 h3
    simp only [List.foldl_cons]
    rcases List.mem_cons.mp hr with he | hm
    · subst he
      have hpr : processResource so known acc r =
          ss.foldl (processSetting known r) acc := by
        simp [processResource, hss]
      apply keys_subset_resourcesFold so known rs _
      rw [hpr]
      exact mem_keys_settingsFold known r ss acc s f hs hcf h1 h2 h3
    · exact ih _ r ss s f hm hss hs hcf h1 h2 h3

theorem buildResourceMap_mem_keys (listPages : List (Fetch (List Resource)))
    (so : String → Fetch (List Setting)) (known : List String)
    (m : AssocMap) (ex : FieldMap) (rs : List Resource) (r : Resource)
    (ss : List Setting) (s : Setting) (f : CField)
    (h : buildResourceMap listPages so known = .ok (m, ex))
    (hc : collectPages listPages = .ok rs)
    (hr : r ∈ rs) (hss : so r.gid = .ok ss) (hs : s ∈ ss)
    (hcf : s.customField = some f) (h1 : ¬ f.gid = "")
    (h2 : f.isGlobalToWorkspace = false) (h3 : f.gid ∉ known) :
    f.gid ∈ ex.map Prod.fst := by
  rw [buildResourceMap_ok_eq listPages so known rs hc] at h
  injection h with h2e
  have hex : ex = (rs.foldl (processResource so known) ([], [])).2 :=
    (congrArg Prod.snd h2e).symm
  rw [hex]
  exact mem_keys_resourcesFold so known rs ([], []) r ss s f hr hss hs hcf h1 h2 h3

theorem list_map_ext {α β : Type _} (l : List α) (f g : α → β)
    (h : ∀ a ∈ l, f a = g a) : l.map f = l.map g := by
  induction l with
  | nil => rfl
  | cons x xs ih =>
    simp only [List.map_cons]
    rw [h x (List.mem_cons_self x xs),
      ih (fun a ha => h a (List.mem_cons_of_mem x ha))]

theorem attachAssoc_gid (pm pom gm : AssocMap) (f : CField) :
    (attachAssoc pm pom gm f).gid = f.gid := by
  simp only [attachAssoc]
  split <;> rfl

theorem attachAssoc_lastUsed (pm pom gm : AssocMap) (f : CField) :
    (attachAssoc pm pom gm f).lastUsed = f.lastUsed := by
  simp only [attachAssoc]
  split <;> rfl

theorem attachAssoc_projects (pm pom gm : AssocMap) (f : CField) :
    (attachAssoc pm pom gm f).projects = (mapLookup pm f.gid).getD [] := by
  simp only [attachAssoc]
  split <;> rfl

theorem attachAssoc_portfolios (pm pom gm : AssocMap) (f : CField) :
    (attachAssoc pm pom gm f).portfolios = (mapLookup pom f.gid).getD [] := by
  simp only [attachAssoc]
  split <;> rfl

theorem attachAssoc_goals (pm pom gm : AssocMap) (f : CField) :
    (attachAssoc pm pom gm f).goals = (mapLookup gm f.gid).getD [] := by
  simp only [attachAssoc]
  split <;> rfl

theorem attachAssoc_createdBy (pm pom gm : AssocMap) (f : CField) :
    optTruthy (attachAssoc pm pom gm f).createdBy = true := by
  simp only [attachAssoc]
  split
  · next hcond => exact hcond
  · rfl

theorem enrichField_gid (s : String → Fetch (Option TaskSummary)) (f : CField) :
    (enrichField s f).gid = f.gid := by
  cases h : s f.gid <;> simp [enrichField, h]

theorem enrichField_createdBy (s : String → Fetch (Option TaskSummary))
    (f : CField) : (enrichField s f).createdBy = f.createdBy := by
  cases h : s f.gid <;> simp [enrichField, h]

theorem enrichField_projects (s : String → Fetch (Option TaskSummary))
    (f : CField) : (enrichField s f).projects = f.projects := by
  cases h : s f.gid <;> simp [enrichField, h]

theorem enrichField_portfolios (s : String → Fetch (Option TaskSummary))
    (f : CField) : (enrichField s f).portfolios = f.portfolios := by
  cases h : s f.gid <;> simp [enrichField, h]

theorem enrichField_goals (s : String → Fetch (Option TaskSummary))
    (f : CField) : (enrichField s f).goals = f.goals := by
  cases h : s f.gid <;> simp [enrichField, h]

theorem enrichField_lastUsed_isSome (s : String → Fetch (Option TaskSummary))
    (f : CField) : (enrichField s f).lastUsed ≠ none := by
  cases h : s f.gid <;> simp [enrichField, h]

theorem fetchLastUsedDates_eq_map (s : String → Fetch (Option TaskSummary))
    (fs : List CField) : fetchLastUsedDates s fs = fs.map (enrichField s) := by
  unfold fetchLastUsedDates runBatches
  exact runBatchesAux_results 3 (by omega) (enrichField s) fs.length fs le_rfl

theorem collectPages_ok_mem {α : Type _} (pages : List (Fetch (List α)))
    (xs : List α) (h : collectPages pages = .ok xs) :
    ∀ x ∈ xs, ∃ pg ∈ pages, ∃ ys, pg = Fetch.ok ys ∧ x ∈ ys := by
  induction pages generalizing xs with
  | nil =>
    have he : collectPages ([] : List (Fetch (List α))) = .ok [] := rfl
    rw [he] at h
    injection h with h2
    rw [← h2]
    intro x hx
    simp at hx
  | cons p rest ih =>
    cases p with
    | ok ys =>
      cases hr : collectPages rest with
      | ok zs =>
        have he : collectPages (Fetch.ok ys :: rest) = .ok (ys ++ zs) := by
          simp [collectPages, hr]
        rw [he] at h
        injection h with h2
        rw [← h2]
        intro x hx
        rcases List.mem_append.mp hx with hx | hx
        · exact ⟨Fetch.ok ys, List.mem_cons_self _ _, ys, rfl, hx⟩
        · obtain ⟨pg, hpg, ys', hys', hx'⟩ := ih zs hr x hx
          exact ⟨pg, List.mem_cons_of_mem _ hpg, ys', hys', hx'⟩
      | httpErr =>
        have he : collectPages (Fetch.ok ys :: rest) = .httpErr := by
          simp [collectPages, hr]
        rw [he] at h
        exact absurd h (by simp)
      | thrown m =>
        have he : collectPages (Fetch.ok ys :: rest) = .thrown m := by
          simp [collectPages, hr]
        rw [he] at h
        exact absurd h (by simp)
    | httpErr =>
      have he : collectPages (Fetch.httpErr :: rest) = .httpErr := by
        simp [collectPages]
      rw [he] at h
      exact absurd h (by simp)
    | thrown m =>
      have he : collectPages (Fetch.thrown m :: rest) = .thrown m := by
        simp [collectPages]
      rw [he] at h
      exact absurd h (by simp)

theorem reconcile_ok_decomp (w : World) (base : List CField)
    (h : reconcile w = .ok base) :
    ∃ (lib : List CField) (pm pom gm : AssocMap) (pf pof gf : FieldMap),
      collectPages w.libraryPages = .ok lib ∧
      buildResourceMap w.projectPages w.projectSettings (lib.map CField.gid) =
        .ok (pm, pf) ∧
      buildResourceMap w.portfolioPages w.portfolioSettings
        (lib.map CField.gid ++ pf.map Prod.fst) = .ok (pom, pof) ∧
      buildResourceMap w.goalPages w.goalSettings
        (lib.map CField.gid ++ pf.map Prod.fst ++ pof.map Prod.fst) =
        .ok (gm, gf) ∧
      base = (lib ++ pf.map Prod.snd ++ pof.map Prod.snd ++ gf.map Prod.snd).map
        (attachAssoc pm pom gm) := by
  unfold reconcile at h
  split at h
  · exact absurd h (by simp)
  · rename_i lib hlib
    have hcol : collectPages w.libraryPages = .ok lib := by
      unfold fetchAllCustomFields at hlib
      split at hlib
      · rename_i xs hxs
        injection hlib with h2
        rw [hxs, h2]
      · exact absurd hlib (by simp)
      · exact absurd hlib (by simp)
    split at h
    · exact absurd h (by simp)
    · rename_i pm pf hp
      split at h
      · exact absurd h (by simp)
      · rename_i pom pof hpo
        split at h
        · exact absurd h (by simp)
        · rename_i gm gf hg
          injection h with h2
          exact ⟨lib, pm, pom, gm, pf, pof, gf, hcol, hp, hpo, hg, h2.symm⟩

theorem handleLoad_ok_split (w : World) (fields : List CField)
    (h : handleLoad w = .ok fields) :
    ∃ base, reconcile w = .ok base ∧
      fields = (if w.includeLastUsed then
        fetchLastUsedDates w.searchTask base else base) := by
  unfold handleLoad at h
  split at h
  · exact absurd h (by simp)
  · rename_i base hbase
    injection h with h2
    exact ⟨base, hbase, h2.symm⟩

theorem buildResourceMap_snd_gid (listPages : List (Fetch (List Resource)))
    (so : String → Fetch (List Setting)) (known : List String)
    (m : AssocMap) (ex : FieldMap)
    (h : buildResourceMap listPages so known = .ok (m, ex)) :
    ∀ p ∈ ex, p.2.gid = p.1 :=
  buildResourceMap_snd_invariant (fun p => p.2.gid = p.1) listPages so known
    m ex h (fun _ _ _ _ _ _ _ _ _ _ _ _ _ => rfl)

theorem buildResourceMap_keys_unknown (listPages : List (Fetch (List Resource)))
    (so : String → Fetch (List Setting)) (known : List String)
    (m : AssocMap) (ex : FieldMap)
    (h : buildResourceMap listPages so known = .ok (m, ex)) :
    ∀ k ∈ ex.map Prod.fst, k ∉ known := by
  intro k hk
  obtain ⟨p, hp, hpk⟩ := List.mem_map.mp hk
  have hinv := buildResourceMap_snd_invariant (fun p => p.1 ∉ known)
    listPages so known m ex h
    (fun _ _ _ _ _ _ _ _ _ _ _ _ h3 => h3) p hp
  rw [← hpk]
  exact hinv

theorem snd_gids_eq_keys (ex : FieldMap) (h : ∀ p ∈ ex, p.2.gid = p.1) :
    (ex.map Prod.snd).map CField.gid = ex.map Prod.fst := by
  rw [List.map_map]
  exact list_map_ext ex _ _ (fun p hp => h p hp)

theorem map_gid_attach (pm pom gm : AssocMap) (l : List CField) :
    (l.map (attachAssoc pm pom gm)).map CField.gid = l.map CField.gid := by
  rw [List.map_map]
  exact list_map_ext l _ _ (fun f _ => attachAssoc_gid pm pom gm f)

theorem map_gid_fetchLastUsedDates (s : String → Fetch (Option TaskSummary))
    (fs : List CField) :
    (fetchLastUsedDates s fs).map CField.gid = fs.map CField.gid := by
  rw [fetchLastUsedDates_eq_map, List.map_map]
  exact list_map_ext fs _ _ (fun f _ => enrichField_gid s f)

theorem handleLoad_gids_decomp (w : World) (fields : List CField)
    (h : handleLoad w = .ok fields) :
    ∃ (lib : List CField) (pf pof gf : FieldMap),
      collectPages w.libraryPages = .ok lib ∧
      (pf.map Prod.fst).Nodup ∧ (pof.map Prod.fst).Nodup ∧
      (gf.map Prod.fst).Nodup ∧
      (∀ k ∈ pf.map Prod.fst, k ∉ lib.map CField.gid) ∧
      (∀ k ∈ pof.map Prod.fst, k ∉ lib.map CField.gid ++ pf.map Prod.fst) ∧
      (∀ k ∈ gf.map Prod.fst,
        k ∉ lib.map CField.gid ++ pf.map Prod.fst ++ pof.map Prod.fst) ∧
      fields.map CField.gid =
        lib.map CField.gid ++ pf.map Prod.fst ++ pof.map Prod.fst ++
          gf.map Prod.fst := by
  obtain ⟨base, hbase, hfe⟩ := handleLoad_ok_split w fields h
  obtain ⟨lib, pm, pom, gm, pf, pof, gf, hcol, hp, hpo, hg, hB⟩ :=
    reconcile_ok_decomp w base hbase
  refine ⟨lib, pf, pof, gf, hcol,
    buildResourceMap_keys_nodup _ _ _ _ _ hp,
    buildResourceMap_keys_nodup _ _ _ _ _ hpo,
    buildResourceMap_keys_nodup _ _ _ _ _ hg,
    buildResourceMap_keys_unknown _ _ _ _ _ hp,
    buildResourceMap_keys_unknown _ _ _ _ _ hpo,
    buildResourceMap_keys_unknown _ _ _ _ _ hg, ?_⟩
  have h1 : fields.map CField.gid = base.map CField.gid := by
    rw [hfe]
    by_cases hc : w.includeLastUsed
    · rw [if_pos hc, map_gid_fetchLastUsedDates]
    · rw [if_neg hc]
  rw [h1, hB, map_gid_attach]
  simp only [List.map_append]
  rw [snd_gids_eq_keys pf (buildResourceMap_snd_gid _ _ _ _ _ hp),
    snd_gids_eq_keys pof (buildResourceMap_snd_gid _ _ _ _ _ hpo),
    snd_gids_eq_keys gf (buildResourceMap_snd_gid _ _ _ _ _ hg)]

/-- C1: when the workspace-library fetch returns each field identity at most
once, the merged field set of a completed run contains exactly one entry per
unique identity (its gid list has no duplicates), and re-running the merge on
the same inputs yields the identical result. -/
theorem merged_set_has_unique_identities (w : World)
    (lib fields : List CField)
    (hlib : collectPages w.libraryPages = .ok lib)
    (hnodup : (lib.map CField.gid).Nodup)
    (hrun : handleLoad w = .ok fields) :
    (fields.map CField.gid).Nodup ∧
      ∀ fields', handleLoad w = .ok fields' → fields' = fields := by
  obtain ⟨lib', pf, pof, gf, hcol, hn1, hn2, hn3, hu1, hu2, hu3, hgids⟩ :=
    handleLoad_gids_decomp w fields hrun
  have hll : lib = lib' := Fetch.ok.inj (hlib.symm.trans hcol)
  subst hll
  constructor
  · rw [hgids]
    have d1 : (lib.map CField.gid).Disjoint (pf.map Prod.fst) :=
      fun a ha hb => hu1 a hb ha
    have n12 := hnodup.append hn1 d1
    have d2 : ((lib.map CField.gid) ++ pf.map Prod.fst).Disjoint
        (pof.map Prod.fst) := fun a ha hb => hu2 a hb ha
    have n123 := n12.append hn2 d2
    have d3 : ((lib.map CField.gid) ++ pf.map Prod.fst ++
        pof.map Prod.fst).Disjoint (gf.map Prod.fst) :=
      fun a ha hb => hu3 a hb ha
    exact n123.append hn3 d3
  · intro fields' h'
    rw [hrun] at h'
    injection h' with h2
    exact h2.symm

/-- Workspace-library field A of the sample run. -/
def fA : CField :=
  { gid := "A", name := "Alpha", isGlobalToWorkspace := true,
    createdBy := some "nina" }

/-- Workspace-library field B of the sample run (no creator name). -/
def fB : CField :=
  { gid := "B", name := "Beta", isGlobalToWorkspace := true }

/-- Non-global field C of the sample run, discovered via attachments only. -/
def fC : CField := { gid := "C", name := "Gamma" }

/-- The one project of the sample run. -/
def prj1 : Resource :=
  { gid := "p1", name := "Proj One", privacySetting := some "private" }

/-- The one goal of the sample run. -/
def gl1 : Resource := { gid := "g1", name := "Goal One" }

/-- Project attachment setting carrying field C. -/
def stC : Setting :=
  { customField := some fC, createdAt := some "2024-01-02" }

/-- Goal attachment setting carrying field C. -/
def stC2 : Setting := { customField := some fC }

/-- Sample world: library {A,B}, one project and one goal both carrying the
non-global field C, enrichment disabled. -/
def wMain : World :=
  { libraryPages := [Fetch.ok [fA, fB]]
    projectPages := [Fetch.ok [prj1]]
    portfolioPages := [Fetch.ok []]
    goalPages := [Fetch.ok [gl1]]
    projectSettings := fun g => if g = "p1" then .ok [stC] else .ok []
    portfolioSettings := fun _ => .ok []
    goalSettings := fun g => if g = "g1" then .ok [stC2] else .ok []
    searchTask := fun _ => .ok none
    includeLastUsed := false }

/-- The merged field list `handleLoad` produces on `wMain`. -/
def mainFields : List CField :=
  [fA,
   { fB with createdBy := some "Asana" },
   { fC with
      projects := [mkEntry prj1 stC]
      goals := [mkEntry gl1 stC2]
      createdBy := some "Asana" }]

instance exceptDecEq {ε α : Type _} [DecidableEq ε] [DecidableEq α] :
    DecidableEq (Except ε α) := fun x y =>
  match x, y with
  | .error a, .error b =>
    if h : a = b then .isTrue (by rw [h])
    else .isFalse (by intro he; injection he with h2; exact h h2)
  | .ok a, .ok b =>
    if h : a = b then .isTrue (by rw [h])
    else .isFalse (by intro he; injection he with h2; exact h h2)
  | .error _, .ok _ => .isFalse (by intro he; exact Except.noConfusion he)
  | .ok _, .error _ => .isFalse (by intro he; exact Except.noConfusion he)

theorem merged_set_has_unique_identities_witness :
    (mainFields.map CField.gid).Nodup ∧
      ∀ fields', handleLoad wMain = .ok fields' → fields' = mainFields :=
  merged_set_has_unique_identities wMain [fA, fB] mainFields (by decide)
    (by decide) (by decide)

/-- C2: a non-global field X attached to at least one project and at least one
goal, and absent from the workspace library, is recorded as newly discovered
exactly once, in the projects phase; the portfolios and goals phases, which
run with the grown known-identities set, do not re-emit it. -/
theorem sequential_discovery_dedup (w : World) (lib : List CField)
    (X : CField) (pm pom gm : AssocMap) (pf pof gf : FieldMap)
    (prs grs : List Resource) (pr gr : Resource)
    (pss gss : List Setting) (sp sg : Setting)
    (hXg : X.isGlobalToWorkspace = false) (hXne : ¬ X.gid = "")
    (hXlib : X.gid ∉ lib.map CField.gid)
    (hpc : collectPages w.projectPages = .ok prs) (hprm : pr ∈ prs)
    (hpss : w.projectSettings pr.gid = .ok pss) (hsp : sp ∈ pss)
    (hspX : sp.customField = some X)
    (hgc : collectPages w.goalPages = .ok grs) (hgrm : gr ∈ grs)
    (hgss : w.goalSettings gr.gid = .ok gss) (hsg : sg ∈ gss)
    (hsgX : sg.customField = some X)
    (hproj : buildResourceMap w.projectPages w.projectSettings
      (lib.map CField.gid) = .ok (pm, pf))
    (hport : buildResourceMap w.portfolioPages w.portfolioSettings
      (lib.map CField.gid ++ pf.map Prod.fst) = .ok (pom, pof))
    (hgoal : buildResourceMap w.goalPages w.goalSettings
      (lib.map CField.gid ++ pf.map Prod.fst ++ pof.map Prod.fst) =
      .ok (gm, gf)) :
    (pf.map Prod.fst).count X.gid = 1 ∧
      X.gid ∉ pof.map Prod.fst ∧ X.gid ∉ gf.map Prod.fst := by
  have hmem : X.gid ∈ pf.map Prod.fst :=
    buildResourceMap_mem_keys w.projectPages w.projectSettings
      (lib.map CField.gid) pm pf prs pr pss sp X hproj hpc hprm hpss hsp
      hspX hXne hXg hXlib
  have hnd := buildResourceMap_keys_nodup _ _ _ _ _ hproj
  refine ⟨List.count_eq_one_of_mem hnd hmem, ?_, ?_⟩
  · intro hin
    exact buildResourceMap_keys_unknown _ _ _ _ _ hport X.gid hin
      (List.mem_append.mpr (Or.inr hmem))
  · intro hin
    exact buildResourceMap_keys_unknown _ _ _ _ _ hgoal X.gid hin
      (List.mem_append.mpr (Or.inl (List.mem_append.mpr (Or.inr hmem))))

theorem sequential_discovery_dedup_witness :
    (([("C", fC)] : FieldMap).map Prod.fst).count fC.gid = 1 ∧
      fC.gid ∉ ([] : FieldMap).map Prod.fst ∧
      fC.gid ∉ ([] : FieldMap).map Prod.fst :=
  sequential_discovery_dedup wMain [fA, fB] fC
    [("C", [mkEntry prj1 stC])] [] [("C", [mkEntry gl1 stC2])]
    [("C", fC)] [] []
    [prj1] [gl1] prj1 gl1 [stC] [stC2] stC stC2
    (by decide) (by decide) (by decide)
    (by decide) (by decide) (by decide) (by decide) (by decide)
    (by decide) (by decide) (by decide) (by decide) (by decide)
    (by decide) (by decide) (by decide)

/-- C3: with a workspace library of {A,B} and exactly one project exposing the
additional non-global field C, the merged set is exactly {A,B,C} and the entry
for C carries a projects association naming that project. -/
theorem discovery_completeness (w : World) (A B C : CField) (p : Resource)
    (s : Setting)
    (hlib : w.libraryPages = [Fetch.ok [A, B]])
    (hpp : w.projectPages = [Fetch.ok [p]])
    (hps : w.projectSettings p.gid = .ok [s])
    (hsc : s.customField = some C)
    (hpo : w.portfolioPages = [Fetch.ok []])
    (hgo : w.goalPages = [Fetch.ok []])
    (hCg : C.isGlobalToWorkspace = false) (hCne : ¬ C.gid = "")
    (hCA : ¬ C.gid = A.gid) (hCB : ¬ C.gid = B.gid) :
    ∃ fields, handleLoad w = .ok fields ∧
      fields.map CField.gid = [A.gid, B.gid, C.gid] ∧
      ∃ f ∈ fields, f.gid = C.gid ∧ ∃ e ∈ f.projects, e.gid = p.gid := by
  have h1 : fetchAllCustomFields w.libraryPages = .ok [A, B] := by
    rw [hlib]; rfl
  have hc1 : collectPages w.projectPages = .ok [p] := by
    rw [hpp]; simp [collectPages]
  have h2 : buildResourceMap w.projectPages w.projectSettings
      ([A, B].map CField.gid) =
      .ok ([(C.gid, [mkEntry p s])], [(C.gid, C)]) := by
    rw [buildResourceMap_ok_eq w.projectPages w.projectSettings _ [p] hc1]
    simp only [List.foldl_cons, List.foldl_nil]
    simp only [processResource, hps]
    simp only [List.foldl_cons, List.foldl_nil]
    simp only [processSetting, hsc]
    rw [if_neg hCne]
    have hnk : C.gid ∉ [A, B].map CField.gid := by
      intro h
      simp only [List.map_cons, List.map_nil, List.mem_cons,
        List.not_mem_nil, or_false] at h
      rcases h with h | h
      · exact hCA h
      · exact hCB h
    rw [if_pos ⟨hCg, hnk, rfl⟩]
    rfl
  have h3 : buildResourceMap w.portfolioPages w.portfolioSettings
      ([A, B].map CField.gid ++ [(C.gid, C)].map Prod.fst) = .ok ([], []) := by
    rw [hpo]; rfl
  have h4 : buildResourceMap w.goalPages w.goalSettings
      ([A, B].map CField.gid ++ [(C.gid, C)].map Prod.fst ++
        ([] : FieldMap).map Prod.fst) = .ok ([], []) := by
    rw [hgo]; rfl
  have hrec : reconcile w = .ok (([A, B] ++ [(C.gid, C)].map Prod.snd ++
      ([] : FieldMap).map Prod.snd ++ ([] : FieldMap).map Prod.snd).map
      (attachAssoc [(C.gid, [mkEntry p s])] [] [])) := by
    unfold reconcile
    rw [h1]
    dsimp only
    rw [h2]
    dsimp only
    rw [h3]
    dsimp only
    rw [h4]
  have hCel : (attachAssoc [(C.gid, [mkEntry p s])] [] [] C).projects =
      [mkEntry p s] := by
    rw [attachAssoc_projects]
    simp [mapLookup]
  have hCm : C ∈ ([A, B] ++ [(C.gid, C)].map Prod.snd ++
      ([] : FieldMap).map Prod.snd ++ ([] : FieldMap).map Prod.snd) := by
    simp
  refine ⟨(if w.includeLastUsed then
      fetchLastUsedDates w.searchTask
        (([A, B] ++ [(C.gid, C)].map Prod.snd ++ ([] : FieldMap).map Prod.snd ++
          ([] : FieldMap).map Prod.snd).map
          (attachAssoc [(C.gid, [mkEntry p s])] [] []))
    else
      ([A, B] ++ [(C.gid, C)].map Prod.snd ++ ([] : FieldMap).map Prod.snd ++
        ([] : FieldMap).map Prod.snd).map
        (attachAssoc [(C.gid, [mkEntry p s])] [] [])), ?_, ?_, ?_⟩
  · unfold handleLoad
    rw [hrec]
  · by_cases hc : w.includeLastUsed
    · rw [if_pos hc, map_gid_fetchLastUsedDates, map_gid_attach]
      simp
    · rw [if_neg hc, map_gid_attach]
      simp
  · by_cases hc : w.includeLastUsed
    · rw [if_pos hc, fetchLastUsedDates_eq_map]
      refine ⟨enrichField w.searchTask
        (attachAssoc [(C.gid, [mkEntry p s])] [] [] C),
        List.mem_map_of_mem _ (List.mem_map_of_mem _ hCm), ?_, ?_⟩
      · rw [enrichField_gid, attachAssoc_gid]
      · rw [enrichField_projects, hCel]
        exact ⟨mkEntry p s, List.mem_cons_self _ _, rfl⟩
    · rw [if_neg hc]
      refine ⟨attachAssoc [(C.gid, [mkEntry p s])] [] [] C,
        List.mem_map_of_mem _ hCm, attachAssoc_gid _ _ _ _, ?_⟩
      rw [hCel]
      exact ⟨mkEntry p s, List.mem_cons_self _ _, rfl⟩

/-- Sample world for the discovery-completeness scenario: library {A,B}, one
project exposing C, no portfolios, no goals. -/
def wC3 : World :=
  { libraryPages := [Fetch.ok [fA, fB]]
    projectPages := [Fetch.ok [prj1]]
    portfolioPages := [Fetch.ok []]
    goalPages := [Fetch.ok []]
    projectSettings := fun g => if g = "p1" then .ok [stC] else .ok []
    portfolioSettings := fun _ => .ok []
    goalSettings := fun _ => .ok []
    searchTask := fun _ => .ok none
    includeLastUsed := false }

theorem discovery_completeness_witness :
    ∃ fields, handleLoad wC3 = .ok fields ∧
      fields.map CField.gid = [fA.gid, fB.gid, fC.gid] ∧
      ∃ f ∈ fields, f.gid = fC.gid ∧ ∃ e ∈ f.projects, e.gid = prj1.gid :=
  discovery_completeness wC3 fA fB fC prj1 stC rfl rfl (by decide) (by decide)
    rfl rfl (by decide) (by decide) (by decide) (by decide)

/-- Message carried by the rejected portfolio list fetch of `wC4`. -/
def netMsg : String := "portfolio network failure"

/-- Message carried by the rejected goal list fetch of `wC8`. -/
def goalCrashMsg : String := "goal fetch crashed"

/-- World whose portfolios collection fetch throws (promise rejection). -/
def wC4 : World :=
  { libraryPages := [Fetch.ok [fA]]
    projectPages := [Fetch.ok []]
    portfolioPages := [Fetch.thrown netMsg]
    goalPages := [Fetch.ok []]
    projectSettings := fun _ => .ok []
    portfolioSettings := fun _ => .ok []
    goalSettings := fun _ => .ok []
    searchTask := fun _ => .ok none
    includeLastUsed := false }

/-- C4 counterexample: a portfolios collection fetch that throws is treated as
an exception escaping `buildResourceMap` into the top-level `catch`, so the
run aborts with the error instead of completing with empty portfolio
associations — the claim that any failure mode of that fetch is non-fatal is
false on the code. -/
theorem portfolio_thrown_aborts_run : handleLoad wC4 = .error netMsg := by
  decide

/-- C4 (amended): a portfolios collection fetch answering with a non-OK HTTP
response is non-fatal: provided the other category list fetches do not throw,
the run completes and every merged field carries an empty portfolios
association list. -/
theorem portfolio_httpError_nonfatal (w : World) (lib : List CField)
    (hlib : collectPages w.libraryPages = .ok lib)
    (hpo : collectPages w.portfolioPages = .httpErr)
    (hpnt : ∀ m, collectPages w.projectPages ≠ .thrown m)
    (hgnt : ∀ m, collectPages w.goalPages ≠ .thrown m) :
    ∃ fs, handleLoad w = .ok fs ∧ ∀ f ∈ fs, f.portfolios = [] := by
  have h1 : fetchAllCustomFields w.libraryPages = .ok lib := by
    unfold fetchAllCustomFields
    rw [hlib]
  have h2e : ∃ pm pf, buildResourceMap w.projectPages w.projectSettings
      (lib.map CField.gid) = .ok (pm, pf) := by
    cases hc : collectPages w.projectPages with
    | ok rs => exact ⟨_, _, buildResourceMap_ok_eq _ _ _ rs hc⟩
    | httpErr => exact ⟨[], [], by unfold buildResourceMap; rw [hc]⟩
    | thrown m => exact absurd hc (hpnt m)
  obtain ⟨pm, pf, h2⟩ := h2e
  have h3 : buildResourceMap w.portfolioPages w.portfolioSettings
      (lib.map CField.gid ++ pf.map Prod.fst) = .ok ([], []) := by
    unfold buildResourceMap
    rw [hpo]
  have h4e : ∃ gm gf, buildResourceMap w.goalPages w.goalSettings
      (lib.map CField.gid ++ pf.map Prod.fst ++ ([] : FieldMap).map Prod.fst) =
      .ok (gm, gf) := by
    cases hc : collectPages w.goalPages with
    | ok rs => exact ⟨_, _, buildResourceMap_ok_eq _ _ _ rs hc⟩
    | httpErr => exact ⟨[], [], by unfold buildResourceMap; rw [hc]⟩
    | thrown m => exact absurd hc (hgnt m)
  obtain ⟨gm, gf, h4⟩ := h4e
  have hrec : reconcile w = .ok ((lib ++ pf.map Prod.snd ++
      ([] : FieldMap).map Prod.snd ++ gf.map Prod.snd).map
      (attachAssoc pm [] gm)) := by
    unfold reconcile
    rw [h1]
    dsimp only
    rw [h2]
    dsimp only
    rw [h3]
    dsimp only
    rw [h4]
  refine ⟨(if w.includeLastUsed then
      fetchLastUsedDates w.searchTask
        ((lib ++ pf.map Prod.snd ++ ([] : FieldMap).map Prod.snd ++
          gf.map Prod.snd).map (attachAssoc pm [] gm))
    else
      (lib ++ pf.map Prod.snd ++ ([] : FieldMap).map Prod.snd ++
        gf.map Prod.snd).map (attachAssoc pm [] gm)), ?_, ?_⟩
  · unfold handleLoad
    rw [hrec]
  · by_cases hc : w.includeLastUsed
    · rw [if_pos hc, fetchLastUsedDates_eq_map]
      intro f hf
      obtain ⟨g, hg, rfl⟩ := List.mem_map.mp hf
      rw [enrichField_portfolios]
      obtain ⟨g0, hg0, rfl⟩ := List.mem_map.mp hg
      rw [attachAssoc_portfolios]
      rfl
    · rw [if_neg hc]
      intro f hf
      obtain ⟨g0, hg0, rfl⟩ := List.mem_map.mp hf
      rw [attachAssoc_portfolios]
      rfl

/-- World for the C4 witness: portfolios list answers non-OK, all other
fetches succeed. -/
def wC4w : World :=
  { libraryPages := [Fetch.ok [fA]]
    projectPages := [Fetch.ok []]
    portfolioPages := [Fetch.httpErr]
    goalPages := [Fetch.ok []]
    projectSettings := fun _ => .ok []
    portfolioSettings := fun _ => .ok []
    goalSettings := fun _ => .ok []
    searchTask := fun _ => .ok none
    includeLastUsed := false }

theorem portfolio_httpError_nonfatal_witness :
    ∃ fs, handleLoad wC4w = .ok fs ∧ ∀ f ∈ fs, f.portfolios = [] :=
  portfolio_httpError_nonfatal wC4w [fA] (by decide) (by decide)
    (by
      intro m h
      have hh : collectPages wC4w.projectPages = .ok ([] : List Resource) := by
        decide
      rw [hh] at h
      exact Fetch.noConfusion h)
    (by
      intro m h
      have hh : collectPages wC4w.goalPages = .ok ([] : List Resource) := by
        decide
      rw [hh] at h
      exact Fetch.noConfusion h)

/-- World of an entirely successful minimal run, enrichment off. -/
def wC5 : World :=
  { libraryPages := [Fetch.ok []]
    projectPages := [Fetch.ok []]
    portfolioPages := [Fetch.ok []]
    goalPages := [Fetch.ok []]
    projectSettings := fun _ => .ok []
    portfolioSettings := fun _ => .ok []
    goalSettings := fun _ => .ok []
    searchTask := fun _ => .ok none
    includeLastUsed := false }

/-- Boolean check that adjacent trace values never decrease. -/
def nonDecreasing : List Nat → Bool
  | a :: b :: rest => Nat.ble a b && nonDecreasing (b :: rest)
  | _ => true

theorem nonDecreasing_iff_chain (l : List Nat) :
    nonDecreasing l = true ↔ List.Chain' (fun a b => a ≤ b) l := by
  induction l with
  | nil => simp [nonDecreasing]
  | cons a t ih =>
    cases t with
    | nil => simp [nonDecreasing]
    | cons b rest =>
      simp [nonDecreasing, List.chain'_cons, Nat.ble_eq] at ih ⊢
      rw [ih]
      tauto

/-- C5: the progress percentages emitted over a successful run are 0, 5, 40,
25, 45, 60, 100 — the program emits 40 (after the library fetch) immediately
followed by 25 (at the projects scan), so the sequence is not monotonically
non-decreasing. -/
theorem progress_trace_regresses :
    handleLoadTrace wC5 = [0, 5, 40, 25, 45, 60, 100] ∧
      ¬ List.Chain' (fun a b => a ≤ b) (handleLoadTrace wC5) := by
  have he : handleLoadTrace wC5 = [0, 5, 40, 25, 45, 60, 100] := by decide
  refine ⟨he, ?_⟩
  rw [he, ← nonDecreasing_iff_chain]
  decide

/-- C6: the batch runner executes exactly the ceiling of N divided by W
batches, pauses after every batch except the last, and settles items
independently: the result list is the per-item settlement of every item in
order, so one failing item receives the sentinel while all others keep their
own results. -/
theorem batch_runner_contract {α β : Type} (W : Nat) (hW : 0 < W)
    (step : α → Except String β) (sentinel : β) (items : List α) :
    (runBatches W (fun a => match step a with
        | .ok b => b
        | .error _ => sentinel) items).results =
      items.map (fun a => match step a with
        | .ok b => b
        | .error _ => sentinel) ∧
    (runBatches W (fun a => match step a with
        | .ok b => b
        | .error _ => sentinel) items).batches = (items.length + W - 1) / W ∧
    (runBatches W (fun a => match step a with
        | .ok b => b
        | .error _ => sentinel) items).pauses =
      (runBatches W (fun a => match step a with
        | .ok b => b
        | .error _ => sentinel) items).batches - 1 := by
  unfold runBatches
  exact ⟨runBatchesAux_results W hW _ items.length items le_rfl,
    runBatchesAux_batches W hW _ items.length items le_rfl,
    runBatchesAux_pauses W hW _ items.length items le_rfl⟩

/-- Failure message of the always-failing third item. -/
def boomMsg : String := "boom"

/-- Per-item operation over five items where item 3 always fails. -/
def step5 : Nat → Except String Nat :=
  fun n => if n = 3 then .error boomMsg else .ok n

theorem batch_runner_contract_witness :
    (runBatches 2 (fun a => match step5 a with
        | .ok b => b
        | .error _ => (0 : Nat)) [1, 2, 3, 4, 5]).results = [1, 2, 0, 4, 5] ∧
      (runBatches 2 (fun a => match step5 a with
        | .ok b => b
        | .error _ => (0 : Nat)) [1, 2, 3, 4, 5]).batches = 3 ∧
      (runBatches 2 (fun a => match step5 a with
        | .ok b => b
        | .error _ => (0 : Nat)) [1, 2, 3, 4, 5]).pauses = 2 := by
  obtain ⟨h1, h2, h3⟩ :=
    batch_runner_contract 2 (by decide) step5 0 [1, 2, 3, 4, 5]
  have hb := h2.trans
    (by decide : (([1, 2, 3, 4, 5] : List Nat).length + 2 - 1) / 2 = 3)
  exact ⟨h1.trans (by decide), hb, h3.trans (by rw [hb])⟩

/-- Library pages whose OK payloads carry no `last_used` property. -/
def pagesClean (pages : List (Fetch (List CField))) : Prop :=
  ∀ pg ∈ pages, ∀ fs : List CField, pg = Fetch.ok fs →
    ∀ f ∈ fs, f.lastUsed = none

/-- Settings oracle whose field payloads carry no `last_used` property. -/
def settingsClean (so : String → Fetch (List Setting)) : Prop :=
  ∀ g ss, so g = .ok ss → ∀ s ∈ ss, ∀ f : CField,
    s.customField = some f → f.lastUsed = none

/-- All payloads the world returns lack `last_used`, as the upstream API does
not supply that property. -/
def payloadsClean (w : World) : Prop :=
  pagesClean w.libraryPages ∧ settingsClean w.projectSettings ∧
    settingsClean w.portfolioSettings ∧ settingsClean w.goalSettings

/-- C7: with the enrichment toggle off, every merged field ends the run in the
not-checked `last_used` state (property absent), the run result does not
depend on the task-search oracle at all (no search query can influence it),
and the not-checked state differs from every state the enrichment step can
produce (which always assigns the property, `null` when nothing was found). -/
theorem enrichment_opt_out (w : World) (fields : List CField)
    (hoff : w.includeLastUsed = false)
    (hclean : payloadsClean w)
    (hrun : handleLoad w = .ok fields) :
    (∀ f ∈ fields, f.lastUsed = none) ∧
    (∀ s', handleLoad { w with searchTask := s' } = .ok fields) ∧
    (∀ (s' : String → Fetch (Option TaskSummary)) (f : CField),
      (enrichField s' f).lastUsed ≠ none) := by
  obtain ⟨base, hbase, hfe⟩ := handleLoad_ok_split w fields hrun
  have hfb : fields = base := by
    rw [hfe, hoff]
    simp
  obtain ⟨lib, pm, pom, gm, pf, pof, gf, hcol, hp, hpo, hg, hB⟩ :=
    reconcile_ok_decomp w base hbase
  obtain ⟨hcl, hcp, hcpo, hcg⟩ := hclean
  refine ⟨?_, ?_, fun s' f => enrichField_lastUsed_isSome s' f⟩
  · intro f hf
    rw [hfb, hB] at hf
    obtain ⟨g, hg0, rfl⟩ := List.mem_map.mp hf
    rw [attachAssoc_lastUsed]
    rcases List.mem_append.mp hg0 with h123 | h4
    · rcases List.mem_append.mp h123 with h12 | h3s
      · rcases List.mem_append.mp h12 with h1s | h2s
        · obtain ⟨pg, hpg, ys, hys, hgy⟩ :=
            collectPages_ok_mem _ _ hcol g h1s
          exact hcl pg hpg ys hys g hgy
        · obtain ⟨q, hq, rfl⟩ := List.mem_map.mp h2s
          exact buildResourceMap_snd_invariant (fun p => p.2.lastUsed = none)
            _ _ _ _ _ hp
            (fun rs hc r hr ss hss s hs f0 hcf _ _ _ =>
              hcp r.gid ss hss s hs f0 hcf) q hq
      · obtain ⟨q, hq, rfl⟩ := List.mem_map.mp h3s
        exact buildResourceMap_snd_invariant (fun p => p.2.lastUsed = none)
          _ _ _ _ _ hpo
          (fun rs hc r hr ss hss s hs f0 hcf _ _ _ =>
            hcpo r.gid ss hss s hs f0 hcf) q hq
    · obtain ⟨q, hq, rfl⟩ := List.mem_map.mp h4
      exact buildResourceMap_snd_invariant (fun p => p.2.lastUsed = none)
        _ _ _ _ _ hg
        (fun rs hc r hr ss hss s hs f0 hcf _ _ _ =>
          hcg r.gid ss hss s hs f0 hcf) q hq
  · intro s'
    have hre : reconcile { w with searchTask := s' } = .ok base := hbase
    unfold handleLoad
    rw [hre]
    dsimp only
    rw [hoff]
    simp only [Bool.false_eq_true, if_false]
    rw [hfb]

theorem wMain_payloadsClean : payloadsClean wMain := by
  refine ⟨?_, ?_, ?_, ?_⟩
  · intro pg hpg fs hok f hf
    have hpe : pg = Fetch.ok [fA, fB] := by
      have hpm : pg ∈ [Fetch.ok [fA, fB]] := hpg
      simpa using hpm
    rw [hpe] at hok
    injection hok with h2
    rw [← h2] at hf
    have hfe : f = fA ∨ f = fB := by simpa using hf
    rcases hfe with h | h <;> rw [h] <;> rfl
  · intro g ss hss s hs f hcf
    have hss2 : (if g = "p1" then Fetch.ok [stC]
        else Fetch.ok ([] : List Setting)) = Fetch.ok ss := hss
    split at hss2
    · injection hss2 with h2
      rw [← h2] at hs
      have hse : s = stC := by simpa using hs
      rw [hse] at hcf
      have hcf2 : some fC = some f := hcf
      injection hcf2 with h3
      rw [← h3]
      rfl
    · injection hss2 with h2
      rw [← h2] at hs
      simp at hs
  · intro g ss hss s hs f hcf
    have hss2 : Fetch.ok ([] : List Setting) = Fetch.ok ss := hss
    injection hss2 with h2
    rw [← h2] at hs
    simp at hs
  · intro g ss hss s hs f hcf
    have hss2 : (if g = "g1" then Fetch.ok [stC2]
        else Fetch.ok ([] : List Setting)) = Fetch.ok ss := hss
    split at hss2
    · injection hss2 with h2
      rw [← h2] at hs
      have hse : s = stC2 := by simpa using hs
      rw [hse] at hcf
      have hcf2 : some fC = some f := hcf
      injection hcf2 with h3
      rw [← h3]
      rfl
    · injection hss2 with h2
      rw [← h2] at hs
      simp at hs

theorem enrichment_opt_out_witness :
    (∀ f ∈ mainFields, f.lastUsed = none) ∧
    (∀ s', handleLoad { wMain with searchTask := s' } = .ok mainFields) ∧
    (∀ (s' : String → Fetch (Option TaskSummary)) (f : CField),
      (enrichField s' f).lastUsed ≠ none) :=
  enrichment_opt_out wMain mainFields rfl wMain_payloadsClean (by decide)

/-- C8 (amended): any failure of the workspace field-library fetch — a non-OK
page or a thrown page, at any position in the pagination chain — aborts the
whole aggregation with a user-visible error, so no merged field set is
produced. -/
theorem library_failure_fatal (w : World)
    (hfail : ∀ xs : List CField, collectPages w.libraryPages ≠ .ok xs) :
    ∃ m, handleLoad w = .error m := by
  cases hc : collectPages w.libraryPages with
  | ok xs => exact absurd hc (hfail xs)
  | httpErr =>
    refine ⟨fetchAllCustomFields.failedLoadMsg, ?_⟩
    have h1 : fetchAllCustomFields w.libraryPages =
        .error fetchAllCustomFields.failedLoadMsg := by
      unfold fetchAllCustomFields
      rw [hc]
    unfold handleLoad reconcile
    rw [h1]
  | thrown m =>
    refine ⟨m, ?_⟩
    have h1 : fetchAllCustomFields w.libraryPages = .error m := by
      unfold fetchAllCustomFields
      rw [hc]
    unfold handleLoad reconcile
    rw [h1]

/-- World whose goals collection fetch throws while the library succeeds. -/
def wC8 : World :=
  { libraryPages := [Fetch.ok [fA]]
    projectPages := [Fetch.ok []]
    portfolioPages := [Fetch.ok []]
    goalPages := [Fetch.thrown goalCrashMsg]
    projectSettings := fun _ => .ok []
    portfolioSettings := fun _ => .ok []
    goalSettings := fun _ => .ok []
    searchTask := fun _ => .ok none
    includeLastUsed := false }

/-- C8 counterexample: the workspace-library fetch is not the only fetch whose
failure is fatal — a thrown goals collection fetch also aborts the run. -/
theorem category_thrown_also_fatal : handleLoad wC8 = .error goalCrashMsg := by
  decide

/-- World whose first workspace-library page answers non-OK. -/
def wC8lib : World :=
  { libraryPages := [Fetch.httpErr]
    projectPages := [Fetch.ok []]
    portfolioPages := [Fetch.ok []]
    goalPages := [Fetch.ok []]
    projectSettings := fun _ => .ok []
    portfolioSettings := fun _ => .ok []
    goalSettings := fun _ => .ok []
    searchTask := fun _ => .ok none
    includeLastUsed := false }

theorem library_failure_fatal_witness : ∃ m, handleLoad wC8lib = .error m :=
  library_failure_fatal wC8lib (by
    intro xs h
    have hh : collectPages wC8lib.libraryPages = Fetch.httpErr := by decide
    rw [hh] at h
    exact Fetch.noConfusion h)

/-- Every payload the settings oracle reports under identity `G` declares
itself workspace-global. -/
def settingsAllGlobal (so : String → Fetch (List Setting)) (G : String) :
    Prop :=
  ∀ g ss, so g = .ok ss → ∀ s ∈ ss, ∀ f : CField, s.customField = some f →
    f.gid = G → f.isGlobalToWorkspace = true

/-- C9: an identity absent from the workspace library whose detail payloads
all report `is_global_to_workspace = true` is never added to the merged set,
no matter how many resources carry it — discovery captures only payloads
reporting false, and associations are attached only to fields already in the
merged set. -/
theorem global_orphan_excluded (w : World) (lib fields : List CField)
    (G : String)
    (hlib : collectPages w.libraryPages = .ok lib)
    (hG : G ∉ lib.map CField.gid)
    (hpg : settingsAllGlobal w.projectSettings G)
    (hog : settingsAllGlobal w.portfolioSettings G)
    (hgg : settingsAllGlobal w.goalSettings G)
    (hrun : handleLoad w = .ok fields) :
    G ∉ fields.map CField.gid := by
  obtain ⟨base, hbase, hfe⟩ := handleLoad_ok_split w fields hrun
  obtain ⟨lib', pm, pom, gm, pf, pof, gf, hcol, hp, hpo, hg, hB⟩ :=
    reconcile_ok_decomp w base hbase
  have hll : lib = lib' := Fetch.ok.inj (hlib.symm.trans hcol)
  subst hll
  have hgids : fields.map CField.gid = lib.map CField.gid ++
      pf.map Prod.fst ++ pof.map Prod.fst ++ gf.map Prod.fst := by
    have h1 : fields.map CField.gid = base.map CField.gid := by
      rw [hfe]
      by_cases hc : w.includeLastUsed
      · rw [if_pos hc, map_gid_fetchLastUsedDates]
      · rw [if_neg hc]
    rw [h1, hB, map_gid_attach]
    simp only [List.map_append]
    rw [snd_gids_eq_keys pf (buildResourceMap_snd_gid _ _ _ _ _ hp),
      snd_gids_eq_keys pof (buildResourceMap_snd_gid _ _ _ _ _ hpo),
      snd_gids_eq_keys gf (buildResourceMap_snd_gid _ _ _ _ _ hg)]
  rw [hgids]
  have hkey : ∀ (lp : List (Fetch (List Resource)))
      (so : String → Fetch (List Setting)) (kn : List String)
      (m : AssocMap) (ex : FieldMap),
      buildResourceMap lp so kn = .ok (m, ex) → settingsAllGlobal so G →
      G ∉ ex.map Prod.fst := by
    intro lp so kn m ex h hall hmem
    obtain ⟨q, hq, hqk⟩ := List.mem_map.mp hmem
    have hne := buildResourceMap_snd_invariant (fun p => p.1 ≠ G) lp so kn
      m ex h
      (fun rs hc r hr ss hss s hs f hcf h1 h2 h3 => by
        intro hfg
        rw [hall r.gid ss hss s hs f hcf hfg] at h2
        exact Bool.noConfusion h2) q hq
    exact hne hqk
  intro hmem
  rcases List.mem_append.mp hmem with h123 | h4
  · rcases List.mem_append.mp h123 with h12 | h3s
    · rcases List.mem_append.mp h12 with h1s | h2s
      · exact hG h1s
      · exact hkey _ _ _ _ _ hp hpg h2s
    · exact hkey _ _ _ _ _ hpo hog h3s
  · exact hkey _ _ _ _ _ hg hgg h4

/-- Workspace-global field payload absent from the library. -/
def fG : CField :=
  { gid := "G", name := "Ghost", isGlobalToWorkspace := true }

/-- Project attachment setting carrying the global orphan payload. -/
def stG : Setting := { customField := some fG }

/-- World where one project carries the global orphan field. -/
def wC9 : World :=
  { libraryPages := [Fetch.ok [fA]]
    projectPages := [Fetch.ok [prj1]]
    portfolioPages := [Fetch.ok []]
    goalPages := [Fetch.ok []]
    projectSettings := fun g => if g = "p1" then .ok [stG] else .ok []
    portfolioSettings := fun _ => .ok []
    goalSettings := fun _ => .ok []
    searchTask := fun _ => .ok none
    includeLastUsed := false }

theorem global_orphan_excluded_witness :
    ("G" : String) ∉ ([fA] : List CField).map CField.gid :=
  global_orphan_excluded wC9 [fA] [fA] "G" (by decide) (by decide)
    (by
      intro g ss hss s hs f hcf hfg
      have hss2 : (if g = "p1" then Fetch.ok [stG]
          else Fetch.ok ([] : List Setting)) = Fetch.ok ss := hss
      split at hss2
      · injection hss2 with h2
        rw [← h2] at hs
        have hse : s = stG := by simpa using hs
        rw [hse] at hcf
        have hcf2 : some fG = some f := hcf
        injection hcf2 with h3
        rw [← h3]
        rfl
      · injection hss2 with h2
        rw [← h2] at hs
        simp at hs)
    (by
      intro g ss hss s hs f hcf hfg
      have hss2 : Fetch.ok ([] : List Setting) = Fetch.ok ss := hss
      injection hss2 with h2
      rw [← h2] at hs
      simp at hs)
    (by
      intro g ss hss s hs f hcf hfg
      have hss2 : Fetch.ok ([] : List Setting) = Fetch.ok ss := hss
      injection hss2 with h2
      rw [← h2] at hs
      simp at hs)
    (by decide)

/-- C10: after every successful run, every merged field carries a present,
non-empty creator display name: payloads with a falsy creator name were
assigned the literal Asana during association attachment, and enrichment
leaves the creator untouched. -/
theorem creator_name_defaulted (w : World) (fields : List CField)
    (hrun : handleLoad w = .ok fields) :
    ∀ f ∈ fields, ∃ s : String, f.createdBy = some s ∧ s ≠ "" := by
  obtain ⟨base, hbase, hfe⟩ := handleLoad_ok_split w fields hrun
  obtain ⟨lib, pm, pom, gm, pf, pof, gf, _, _, _, _, hB⟩ :=
    reconcile_ok_decomp w base hbase
  intro f hf
  have htr : optTruthy f.createdBy = true := by
    rw [hfe] at hf
    by_cases hc : w.includeLastUsed
    · rw [if_pos hc, fetchLastUsedDates_eq_map] at hf
      obtain ⟨g, hg, rfl⟩ := List.mem_map.mp hf
      rw [enrichField_createdBy]
      rw [hB] at hg
      obtain ⟨g0, hg0, rfl⟩ := List.mem_map.mp hg
      exact attachAssoc_createdBy pm pom gm g0
    · rw [if_neg hc] at hf
      rw [hB] at hf
      obtain ⟨g0, hg0, rfl⟩ := List.mem_map.mp hf
      exact attachAssoc_createdBy pm pom gm g0
  cases hcb : f.createdBy with
  | none =>
    rw [hcb] at htr
    simp [optTruthy] at htr
  | some s =>
    refine ⟨s, rfl, ?_⟩
    rw [hcb] at htr
    simpa [optTruthy] using htr

theorem creator_name_defaulted_witness :
    ∃ s : String,
      ({ fB with createdBy := some "Asana" } : CField).createdBy = some s ∧
        s ≠ "" :=
  creator_name_defaulted wMain mainFields (by decide)
    ({ fB with createdBy := some "Asana" } : CField) (by decide)
